import Mathlib

/-!
Verification of the Windman version-lifecycle engine.

This file is a shallow embedding, in Lean 4, of the core of the Windman
userland version manager (Rust sources under src/): version resolution
(src/install.rs, src/util.rs), the activation switch (src/util.rs,
atomic_symlink_switch), rollback (src/install.rs), explicit activation
(src/cli.rs, switch_to_version), local version detection (src/version.rs)
and retention pruning (src/prune.rs and its caller in src/cli.rs).

Filesystem state is modelled explicitly: a version directory is a name
paired with a modification time (a Nat) or with a payload tree; the
`current` symbolic link is an `Option` of its target name.  Rust string
scanning (the regex crate patterns used by the sources) is embedded as
executable scanners over `List Char`.  All definitions are computable, so
concrete runs evaluate by `decide` or `rfl`.
-/

/-! ## Generic list and string helpers -/

deriving instance DecidableEq for Except

/-- Test whether `pat` is a prefix of `hay` (character lists). -/
def list_starts_with : List Char → List Char → Bool
  | [], _ => true
  | _ :: _, [] => false
  | a :: as, b :: bs => a = b && list_starts_with as bs

/-- Test whether `pat` occurs contiguously inside `hay`. -/
def contains_sub : List Char → List Char → Bool
  | hay, pat =>
    list_starts_with pat hay ||
      (match hay with
        | [] => false
        | _ :: t => contains_sub t pat)

/-- Embedding of Rust `Vec::join(", ")` as used for the available-versions
listing in src/cli.rs. -/
def join_comma : List String → String
  | [] => ""
  | [x] => x
  | x :: y :: rest => x ++ ", " ++ join_comma (y :: rest)

/-- Stable insertion into a list already sorted by the boolean comparator
`le`; a new element goes after existing elements it compares equal to,
matching the stability of Rust `sort_by_key`. -/
def ordered_insert_b {α : Type} (le : α → α → Bool) (x : α) : List α → List α
  | [] => [x]
  | y :: ys => if le x y then x :: y :: ys else y :: ordered_insert_b le x ys

/-- Stable insertion sort by a boolean comparator, the model of Rust
`sort_by_key` (which is a stable sort). -/
def insertion_sort_b {α : Type} (le : α → α → Bool) : List α → List α
  | [] => []
  | x :: xs => ordered_insert_b le x (insertion_sort_b le xs)

/-- Lexicographic comparison of character lists, the order Rust
`Vec::<String>::sort` uses (byte order agrees with scalar-value order). -/
def chars_le : List Char → List Char → Bool
  | [], _ => true
  | _ :: _, [] => false
  | a :: as, b :: bs => if a < b then true else if b < a then false else chars_le as bs

/-- String comparison for the `available.sort()` call in src/cli.rs. -/
def str_le_b (a b : String) : Bool := chars_le a.data b.data

/-! ## Path file names (Rust `Path::file_name`)

`Path::file_name` returns the last normal component of a path: `""` and
`"."` components are dropped, and a path ending in `".."` has no file
name. -/

/-- Split a character list on `/` separators. -/
def split_slash : List Char → List (List Char)
  | [] => [[]]
  | c :: rest =>
    if c = '/' then [] :: split_slash rest
    else
      match split_slash rest with
      | [] => [[c]]
      | h :: t => (c :: h) :: t

/-- Model of Rust `Path::file_name` for Unix paths. -/
def file_name_of (path : String) : Option String :=
  let comps := (split_slash path.data).filter (fun c => c ≠ [] ∧ c ≠ ['.'])
  match comps.getLast? with
  | none => none
  | some last => if last = ['.', '.'] then none else some (String.mk last)

/-! ## The file-name version token (src/install.rs, extract_version_from_filename)

The Rust code matches the regex `(\d+\.\d+\.\d+)` against the file name and
takes capture group 1 of the leftmost match.  Because `\d+` cannot consume a
dot, the leftmost match starts at the first position from which a maximal
digit run, a dot, a maximal digit run, a dot and a non-empty digit run can
be read; the third run is greedy. -/

/-- Maximal digit run at the head of a character list, with the rest. -/
def take_digits (cs : List Char) : List Char × List Char :=
  (cs.takeWhile Char.isDigit, cs.dropWhile Char.isDigit)

/-- Attempt the `\d+\.\d+\.\d+` match anchored at the head of `cs`. -/
def match_semver_at (cs : List Char) : Option (List Char) :=
  let (d1, r1) := take_digits cs
  if d1 = [] then none
  else
    match r1 with
    | '.' :: r2 =>
      let (d2, r3) := take_digits r2
      if d2 = [] then none
      else
        match r3 with
        | '.' :: r4 =>
          let (d3, _) := take_digits r4
          if d3 = [] then none else some (d1 ++ '.' :: d2 ++ '.' :: d3)
        | _ => none
    | _ => none

/-- Leftmost `\d+\.\d+\.\d+` match in a character list. -/
def scan_semver : List Char → Option (List Char)
  | [] => none
  | c :: cs =>
    match match_semver_at (c :: cs) with
    | some v => some v
    | none => scan_semver cs

/-- Embedding of `extract_version_from_filename` (src/install.rs). -/
def extract_version_from_filename (path : String) : Option String :=
  match file_name_of path with
  | none => none
  | some name => (scan_semver name.data).map String.mk

/-! ## The lenient descriptor field regex (src/install.rs, json_extract_field)

The Rust code fishes `"field\s*"\s*:\s*"(.*?)"` out of the descriptor text
with the regex crate: literal quote, the field name, optional whitespace,
quote, optional whitespace, colon, optional whitespace, quote, then a lazy
capture of non-newline characters up to the next quote.  The capture may be
empty. -/

/-- ASCII whitespace as matched by the `\s` class used by the sources. -/
def is_ws_char (c : Char) : Bool :=
  c = ' ' || c = '\t' || c = '\n' || c = '\r' || c = '\x0b' || c = '\x0c'

/-- Drop leading whitespace. -/
def drop_ws (cs : List Char) : List Char := cs.dropWhile is_ws_char

/-- Attempt the field regex anchored at the head of `cs`; returns the
captured value on success. -/
def match_field_at (field : List Char) (cs : List Char) : Option (List Char) :=
  match cs with
  | '"' :: rest =>
    if list_starts_with field rest then
      match drop_ws (rest.drop field.length) with
      | '"' :: r2 =>
        match drop_ws r2 with
        | ':' :: r3 =>
          match drop_ws r3 with
          | '"' :: r4 =>
            let cap := r4.takeWhile (fun c => c ≠ '"' ∧ c ≠ '\n')
            match r4.drop cap.length with
            | '"' :: _ => some cap
            | _ => none
          | _ => none
        | _ => none
      | _ => none
    else none
  | _ => none

/-- Leftmost match of the field regex. -/
def scan_field (field : List Char) : List Char → Option (List Char)
  | [] => none
  | c :: cs =>
    match match_field_at field (c :: cs) with
    | some cap => some cap
    | none => scan_field field cs

/-- Embedding of `json_extract_field` (src/install.rs): fish
`"field":"value"` out of a JSON blob without a full parse. -/
def json_extract_field (s : String) (field : String) : Option String :=
  (scan_field field.data s.data).map String.mk

/-! ## File trees and the bounded walk (walkdir in src/install.rs, src/version.rs) -/

/-- A directory tree: files carry their text content, directories carry
their entries (name and subtree) in directory-listing order. -/
inductive FsTree : Type where
  | file (content : String) : FsTree
  | dir (entries : List (String × FsTree)) : FsTree

/-- Whether a tree node is a regular file (Rust `Path::is_file`). -/
def FsTree.isFileNode : FsTree → Bool
  | FsTree.file _ => true
  | FsTree.dir _ => false

/-- Depth-first walk of directory entries, directories listed before their
contents, descending at most `b` levels: `walk_depth 4 es` yields exactly
the entries WalkDir reports for `min_depth(1).max_depth(4)` when `es` are
the root entries. -/
def walk_depth : Nat → List (String × FsTree) → List (String × FsTree)
  | 0, _ => []
  | Nat.succ b, es =>
    es.foldr (fun e acc =>
      e :: ((match e.2 with
        | FsTree.dir cs => walk_depth b cs
        | FsTree.file _ => []) ++ acc)) []

/-- Look a relative path up in a list of directory entries. -/
def lookup_path : List (String × FsTree) → List String → Option FsTree
  | _, [] => none
  | es, [k] => (es.find? (fun e => e.1 = k)).map (fun e => e.2)
  | es, k :: k2 :: rest =>
    match (es.find? (fun e => e.1 = k)).map (fun e => e.2) with
    | some (FsTree.dir cs) => lookup_path cs (k2 :: rest)
    | _ => none

/-! ## Timestamp fallback (src/util.rs, timestamp_version)

`chrono::Utc::now().format("%Y%m%d%H%M%S")`: the year zero-padded to four
digits (more digits only for years beyond 9999), every other component
zero-padded to two digits. -/

/-- A UTC wall-clock instant, the input of the timestamp formatter. -/
structure UtcTime : Type where
  year : Nat
  month : Nat
  day : Nat
  hour : Nat
  minute : Nat
  second : Nat
deriving DecidableEq

/-- Component ranges chrono produces for a real UTC instant (seconds may
reach 60 on a leap second). -/
def UtcTime.Valid (t : UtcTime) : Prop :=
  t.year < 10000 ∧ 1 ≤ t.month ∧ t.month ≤ 12 ∧ 1 ≤ t.day ∧ t.day ≤ 31 ∧
    t.hour ≤ 23 ∧ t.minute ≤ 59 ∧ t.second ≤ 60

instance (t : UtcTime) : Decidable t.Valid := by
  unfold UtcTime.Valid
  infer_instance

/-- Two-digit zero-padded decimal (chrono `%m`, `%d`, `%H`, `%M`, `%S`). -/
def pad2 (n : Nat) : String :=
  String.mk [Nat.digitChar (n / 10 % 10), Nat.digitChar (n % 10)]

/-- Four-digit zero-padded decimal (chrono `%Y`); years beyond 9999 print
in full. -/
def pad4 (n : Nat) : String :=
  if n < 10000 then
    String.mk [Nat.digitChar (n / 1000 % 10), Nat.digitChar (n / 100 % 10),
      Nat.digitChar (n / 10 % 10), Nat.digitChar (n % 10)]
  else Nat.repr n

/-- Embedding of `timestamp_version` (src/util.rs). -/
def timestamp_version (t : UtcTime) : String :=
  pad4 t.year ++ pad2 t.month ++ pad2 t.day ++ pad2 t.hour ++ pad2 t.minute ++ pad2 t.second

/-! ## Descriptor version detection at install time
(src/install.rs, detect_version_from_product_json)

WalkDir over the staging tree with `min_depth(1).max_depth(4)`, stopping at
the first entry (file or directory) named `product.json`; the file content
is then fished for a `windsurfVersion` field with `json_extract_field`.
Reading a directory as a file fails. -/

/-- Failure cases of the install-time descriptor detection. -/
inductive DetectErr : Type where
  | productJsonNotFound : DetectErr
  | readFailed : DetectErr
  | versionFieldNotFound : DetectErr
deriving DecidableEq

/-- Embedding of `detect_version_from_product_json` (src/install.rs);
`staged` is the entry list of the staging directory. -/
def detect_version_from_product_json (staged : List (String × FsTree)) :
    Except DetectErr String :=
  match (walk_depth 4 staged).find? (fun e => e.1 = "product.json") with
  | none => Except.error DetectErr.productJsonNotFound
  | some (_, FsTree.dir _) => Except.error DetectErr.readFailed
  | some (_, FsTree.file data) =>
    match json_extract_field data "windsurfVersion" with
    | some v => Except.ok v
    | none => Except.error DetectErr.versionFieldNotFound

/-! ## Version resolution (src/install.rs, install_from_tar lines 27-37) -/

/-- Embedding of the version choice in `install_from_tar`:
`ver_from_filename.or(ver_from_product).unwrap_or_else(timestamp_version)`. -/
def resolve_version (tarPath : String) (staged : List (String × FsTree))
    (now : UtcTime) : String :=
  ((extract_version_from_filename tarPath).or
      (detect_version_from_product_json staged).toOption).getD
    (timestamp_version now)

/-! ## A strict JSON value parser (serde_json::from_str in src/version.rs)

src/version.rs first parses the descriptor with serde_json; only if that
fails does it fall back to the lenient regex.  The parser below follows the
JSON grammar serde accepts: a single value with optional surrounding
whitespace and nothing after it; strings reject raw control characters and
understand the standard escapes (`\uXXXX` is mapped through `Char.ofNat`,
which collapses invalid scalar values - surrogate pairs are out of scope
for the descriptors modelled here).  Recursion is bounded by a fuel that
exceeds the input length, which every recursive call strictly consumes. -/

/-- JSON values; numbers keep their token text (never inspected by the
sources). -/
inductive JVal : Type where
  | jnull : JVal
  | jbool (b : Bool) : JVal
  | jnum (tok : String) : JVal
  | jstr (s : String) : JVal
  | jarr (xs : List JVal) : JVal
  | jobj (ms : List (String × JVal)) : JVal

/-- JSON insignificant whitespace. -/
def is_json_ws (c : Char) : Bool := c = ' ' || c = '\t' || c = '\n' || c = '\r'

/-- Skip JSON whitespace. -/
def skip_json_ws (cs : List Char) : List Char := cs.dropWhile is_json_ws

/-- Value of a single hexadecimal digit. -/
def hex_val (x : Char) : Option Nat :=
  if '0' ≤ x ∧ x ≤ '9' then some (x.toNat - '0'.toNat)
  else if 'a' ≤ x ∧ x ≤ 'f' then some (x.toNat - 'a'.toNat + 10)
  else if 'A' ≤ x ∧ x ≤ 'F' then some (x.toNat - 'A'.toNat + 10)
  else none

/-- Convert four hex digits to a character code, if all are hex. -/
def hex_quad (a b c d : Char) : Option Nat := do
  let va ← hex_val a
  let vb ← hex_val b
  let vc ← hex_val c
  let vd ← hex_val d
  pure (va * 4096 + vb * 256 + vc * 16 + vd)

/-- Parse the body of a JSON string after its opening quote; returns the
decoded characters (reversed accumulator) and the rest of the input. -/
def parse_jstring_body : Nat → List Char → List Char → Option (List Char × List Char)
  | 0, _, _ => none
  | Nat.succ _, acc, '"' :: rest => some (acc.reverse, rest)
  | Nat.succ fuel, acc, '\\' :: e :: rest =>
    match e with
    | '"' => parse_jstring_body fuel ('"' :: acc) rest
    | '\\' => parse_jstring_body fuel ('\\' :: acc) rest
    | '/' => parse_jstring_body fuel ('/' :: acc) rest
    | 'b' => parse_jstring_body fuel ('\x08' :: acc) rest
    | 'f' => parse_jstring_body fuel ('\x0c' :: acc) rest
    | 'n' => parse_jstring_body fuel ('\n' :: acc) rest
    | 'r' => parse_jstring_body fuel ('\r' :: acc) rest
    | 't' => parse_jstring_body fuel ('\t' :: acc) rest
    | 'u' =>
      match rest with
      | a :: b :: c :: d :: rest2 =>
        match hex_quad a b c d with
        | some n => parse_jstring_body fuel (Char.ofNat n :: acc) rest2
        | none => none
      | _ => none
    | _ => none
  | Nat.succ fuel, acc, c :: rest =>
    if c.toNat < 32 then none else parse_jstring_body fuel (c :: acc) rest
  | _, _, [] => none

/-- Digit run for number tokens. -/
def digit_run (cs : List Char) : List Char × List Char :=
  (cs.takeWhile Char.isDigit, cs.dropWhile Char.isDigit)

/-- Parse a JSON number token (`-?(0|[1-9][0-9]*)(\.[0-9]+)?([eE][+-]?[0-9]+)?`);
returns the token characters and the rest. -/
def parse_jnumber (cs : List Char) : Option (List Char × List Char) :=
  let (sign, r0) :=
    match cs with
    | '-' :: r => (['-'], r)
    | _ => (([] : List Char), cs)
  match r0 with
  | c :: r1 =>
    if c = '0' then
      let intPart := [c]
      let rest := r1
      (parse_jnumber_frac (sign ++ intPart) rest)
    else if c.isDigit then
      let (ds, rest) := digit_run r1
      parse_jnumber_frac (sign ++ c :: ds) rest
    else none
  | [] => none
where
  parse_jnumber_frac (tok : List Char) (cs : List Char) : Option (List Char × List Char) :=
    let (tok2, r2) :=
      match cs with
      | '.' :: r =>
        match digit_run r with
        | ([], _) => (tok, cs)
        | (ds, rr) => (tok ++ '.' :: ds, rr)
      | _ => (tok, cs)
    match r2 with
    | e :: r3 =>
      if e = 'e' ∨ e = 'E' then
        let (sgn, r4) :=
          match r3 with
          | '+' :: r => (['+'], r)
          | '-' :: r => (['-'], r)
          | _ => (([] : List Char), r3)
        match digit_run r4 with
        | ([], _) => some (tok2, r2)
        | (ds, rr) => some (tok2 ++ e :: sgn ++ ds, rr)
      else some (tok2, r2)
    | [] => some (tok2, r2)

mutual

/-- Parse one JSON value; input must start at the value (no leading
whitespace).  Mutual with object-member and array-element loops, all
bounded by fuel. -/
def parse_jval : Nat → List Char → Option (JVal × List Char)
  | 0, _ => none
  | Nat.succ fuel, cs =>
    match cs with
    | '{' :: rest =>
      match skip_json_ws rest with
      | '}' :: rest2 => some (JVal.jobj [], rest2)
      | rest2 => parse_jmembers fuel rest2 []
    | '[' :: rest =>
      match skip_json_ws rest with
      | ']' :: rest2 => some (JVal.jarr [], rest2)
      | rest2 => parse_jelems fuel rest2 []
    | '"' :: rest =>
      match parse_jstring_body (rest.length + 1) [] rest with
      | some (body, rest2) => some (JVal.jstr (String.mk body), rest2)
      | none => none
    | 't' :: rest =>
      if list_starts_with ['r', 'u', 'e'] rest then some (JVal.jbool true, rest.drop 3)
      else none
    | 'f' :: rest =>
      if list_starts_with ['a', 'l', 's', 'e'] rest then some (JVal.jbool false, rest.drop 4)
      else none
    | 'n' :: rest =>
      if list_starts_with ['u', 'l', 'l'] rest then some (JVal.jnull, rest.drop 3)
      else none
    | _ =>
      match parse_jnumber cs with
      | some (tok, rest) => some (JVal.jnum (String.mk tok), rest)
      | none => none

/-- Parse object members starting at a key (after `{` and whitespace,
first member already known not to be `}`). -/
def parse_jmembers (fuel : Nat) (cs : List Char) (acc : List (String × JVal)) :
    Option (JVal × List Char) :=
  match fuel with
  | 0 => none
  | Nat.succ fuel =>
    match cs with
    | '"' :: rest =>
      match parse_jstring_body (rest.length + 1) [] rest with
      | some (key, rest2) =>
        match skip_json_ws rest2 with
        | ':' :: rest3 =>
          match parse_jval fuel (skip_json_ws rest3) with
          | some (v, rest4) =>
            let acc2 := acc ++ [(String.mk key, v)]
            match skip_json_ws rest4 with
            | ',' :: rest5 => parse_jmembers fuel (skip_json_ws rest5) acc2
            | '}' :: rest5 => some (JVal.jobj acc2, rest5)
            | _ => none
          | none => none
        | _ => none
      | none => none
    | _ => none

/-- Parse array elements starting at a value (after `[` and whitespace,
first element already known not to be `]`). -/
def parse_jelems (fuel : Nat) (cs : List Char) (acc : List JVal) :
    Option (JVal × List Char) :=
  match fuel with
  | 0 => none
  | Nat.succ fuel =>
    match parse_jval fuel cs with
    | some (v, rest) =>
      let acc2 := acc ++ [v]
      match skip_json_ws rest with
      | ',' :: rest2 => parse_jelems fuel (skip_json_ws rest2) acc2
      | ']' :: rest2 => some (JVal.jarr acc2, rest2)
      | _ => none
    | none => none

end

/-- Embedding of `serde_json::from_str::<Value>`: one JSON value with
optional surrounding whitespace and nothing trailing. -/
def json_from_str (s : String) : Option JVal :=
  let cs := skip_json_ws s.data
  match parse_jval (cs.length + 1) cs with
  | some (v, rest) => if skip_json_ws rest = [] then some v else none
  | none => none

/-- Object field lookup (`Value::get`); with duplicate keys the serde map
keeps the last insertion, so lookup runs over the reversed member list. -/
def jget (j : JVal) (k : String) : Option JVal :=
  match j with
  | JVal.jobj ms => (ms.reverse.find? (fun m => m.1 = k)).map (fun m => m.2)
  | _ => none

/-! ## The lenient version regex of src/version.rs (regex_fish_version)

`"(?:windsurfVersion|version)"\s*:\s*"(\d+\.\d+\.\d+)"`: a quoted key (the
first alternative is tried first at each position), optional whitespace,
colon, optional whitespace, then a quoted value that must be exactly a
three-part numeric token. -/

/-- Attempt the fish regex anchored at the head of `cs`. -/
def match_fish_at (cs : List Char) : Option (List Char) :=
  match cs with
  | '"' :: rest =>
    let afterKey :=
      if list_starts_with "windsurfVersion".data rest then
        some (rest.drop 15)
      else if list_starts_with "version".data rest then
        some (rest.drop 7)
      else none
    match afterKey with
    | some ('"' :: r2) =>
      match drop_ws r2 with
      | ':' :: r3 =>
        match drop_ws r3 with
        | '"' :: r4 =>
          let (d1, s1) := take_digits r4
          if d1 = [] then none
          else
            match s1 with
            | '.' :: s2 =>
              let (d2, s3) := take_digits s2
              if d2 = [] then none
              else
                match s3 with
                | '.' :: s4 =>
                  let (d3, s5) := take_digits s4
                  if d3 = [] then none
                  else
                    match s5 with
                    | '"' :: _ => some (d1 ++ '.' :: d2 ++ '.' :: d3)
                    | _ => none
                | _ => none
            | _ => none
        | _ => none
      | _ => none
    | _ => none
  | _ => none

/-- Leftmost match of the fish regex. -/
def scan_fish : List Char → Option (List Char)
  | [] => none
  | c :: cs =>
    match match_fish_at (c :: cs) with
    | some v => some v
    | none => scan_fish cs

/-- Embedding of `regex_fish_version` (src/version.rs). -/
def regex_fish_version (s : String) : Option String :=
  (scan_fish s.data).map String.mk

/-! ## Local version detection (src/version.rs, detect_local_version)

The state records whether the `current` symlink exists (Rust
`Path::exists`, which follows the link, so a dangling link counts as
absent) and, when it does, the name and entries of the directory it
resolves to.  File contents are part of the tree, so reads of existing
files succeed in the model; the only error path of the Rust function (an
unreadable descriptor file) is therefore never taken here. -/

/-- State seen by the local version detector. -/
structure LocalState : Type where
  current : Option (String × List (String × FsTree))

/-- Embedding of `find_product_json` (src/version.rs): fixed candidate
relative paths first, then a shallow walk of depth at most 4 that includes
the root itself; returns the content of the first regular file named
`product.json`. -/
def find_product_json (rootName : String) (es : List (String × FsTree)) :
    Option String :=
  let cand1 := lookup_path es ["resources", "app", "product.json"]
  let cand2 := lookup_path es ["Windsurf", "resources", "app", "product.json"]
  let cand3 := lookup_path es ["app", "resources", "product.json"]
  let cand4 := lookup_path es ["resources", "product.json"]
  match cand1 with
  | some (FsTree.file c) => some c
  | _ =>
    match cand2 with
    | some (FsTree.file c) => some c
    | _ =>
      match cand3 with
      | some (FsTree.file c) => some c
      | _ =>
        match cand4 with
        | some (FsTree.file c) => some c
        | _ =>
          match ((rootName, FsTree.dir es) :: walk_depth 4 es).find?
              (fun e => e.1 = "product.json" && e.2.isFileNode) with
          | some (_, FsTree.file c) => some c
          | _ => none

/-- Embedding of the descriptor analysis of `detect_local_version`
(src/version.rs lines 25-42): strict serde parse preferring
`windsurfVersion` then `version`, with the lenient regex as fallback in
either failure mode. -/
def local_version_from_descriptor (data : String) : Option String :=
  match json_from_str data with
  | some j =>
    match jget j "windsurfVersion" with
    | some (JVal.jstr v) => some v
    | _ =>
      match jget j "version" with
      | some (JVal.jstr v) => some v
      | _ => regex_fish_version data
  | none => regex_fish_version data

/-- Embedding of `detect_local_version` (src/version.rs). -/
def detect_local_version (s : LocalState) : Except String (Option String) :=
  match s.current with
  | none => Except.ok none
  | some (rootName, es) =>
    match find_product_json rootName es with
    | none => Except.ok none
    | some data => Except.ok (local_version_from_descriptor data)

/-! ## The activation switch (src/util.rs, atomic_symlink_switch)

Fine-grained model of the filesystem states the switch passes through.
`dirs` are the existing version directories, `link` and `tmp` are the
targets of the `current` symlink and of the temporary symlink (absent when
`none`).  Rust `Path::exists` follows symlinks, so a link "exists" exactly
when its target directory does. -/

/-- Filesystem neighbourhood of the `current` symlink. -/
structure LinkFs : Type where
  dirs : List String
  link : Option String
  tmp : Option String
deriving DecidableEq

/-- Rust `Path::exists` on a symlink: the link is present and its target
directory exists. -/
def resolves (dirs : List String) : Option String → Bool
  | some t => t ∈ dirs
  | none => false

/-- Embedding of `atomic_symlink_switch` (src/util.rs) as the sequence of
observable filesystem states, in program order:
initial state; after the conditional removal of a stale temp link; after
`symlink(target, &tmp)`; after the conditional `remove_file(link)`; after
`rename(&tmp, link)`.  If the temp path is still occupied by a dangling
link (which `tmp.exists()` reports as absent), `symlink` fails with
`EEXIST` and the function returns early with the first two states. -/
def atomic_symlink_switch_states (s : LinkFs) (target : String) : List LinkFs :=
  let s1 := if resolves s.dirs s.tmp then { s with tmp := none } else s
  match s1.tmp with
  | some _ => [s, s1]
  | none =>
    let s2 := { s1 with tmp := some target }
    let s3 := if resolves s2.dirs s2.link then { s2 with link := none } else s2
    let s4 := { s3 with link := s3.tmp, tmp := none }
    [s, s1, s2, s3, s4]

/-! ## Rollback and explicit activation state
(src/install.rs rollback, src/cli.rs switch_to_version)

The versions root is a list of version directories in directory-listing
order, each carrying its name and modification time, with the `current`
entry excluded (both Rust loops skip it by name); the `current` symlink is
the name of its target directory (targets live under the same root). -/

/-- The versions root as seen by rollback and explicit activation. -/
structure SysState : Type where
  versionDirs : List (String × Nat)
  currentLink : Option String
deriving DecidableEq

/-- Errors of the rollback path.  `internalPanic` stands for the
`dirs.pop().unwrap()` panic, unreachable when directory names are
distinct. -/
inductive RollbackErr : Type where
  | notEnoughVersions : RollbackErr
  | currentLinkUnreadable : RollbackErr
  | internalPanic : RollbackErr
deriving DecidableEq

/-- Comparator of `sort_by_key(|p| mtime(p))` in rollback (ascending). -/
def le_mtime_b (a b : String × Nat) : Bool := decide (a.2 ≤ b.2)

/-- Embedding of `rollback` (src/install.rs): list version directories,
fail when fewer than two, read the current link (failing when it is
absent), drop the current target, stable-sort ascending by modification
time and pop the last (the most recent, ties resolved to the latest in
listing order), then switch.  The returned state is the filesystem after
the call; on error it equals the input state, since the only mutation is
the final switch. -/
def rollback (s : SysState) : SysState × Except RollbackErr String :=
  if s.versionDirs.length < 2 then (s, Except.error RollbackErr.notEnoughVersions)
  else
    match s.currentLink with
    | none => (s, Except.error RollbackErr.currentLinkUnreadable)
    | some cur =>
      let rest := s.versionDirs.filter (fun e => e.1 ≠ cur)
      match (insertion_sort_b le_mtime_b rest).getLast? with
      | none => (s, Except.error RollbackErr.internalPanic)
      | some prev => ({ s with currentLink := some prev.1 }, Except.ok prev.1)

/-- Whether the link target of `current` is an existing directory. -/
def link_target_exists_b (s : SysState) : Bool :=
  match s.currentLink with
  | some t => decide (t ∈ s.versionDirs.map Prod.fst)
  | none => false

/-- Embedding of the existence check
`eff.versions_dir.join(version).is_dir()` (src/cli.rs lines 196-197) over
a state in which the versions root itself exists.  The identifier is a
single path component exactly when it contains no `/`; then the joined
path is: the versions root itself for `""` (`PathBuf::push` of an empty
string only appends a separator) and for `"."`, the parent of the root for
`".."` (both directories exist whenever the root does, so `is_dir` is
true), the `current` symlink for the literal `"current"` (`is_dir` follows
it to its target), and otherwise the root entry named `version`, a
directory exactly when it is listed in the state.  An identifier
containing `/` (including an absolute one, which `join` substitutes for
the whole root) makes the joined path leave this neighbourhood and resolve
through version-directory payloads or the wider filesystem, which the
state does not carry: the check is then outside the model, encoded as
`none`. -/
def join_is_dir (s : SysState) (version : String) : Option Bool :=
  if '/' ∈ version.data then none
  else if version = "" ∨ version = "." ∨ version = ".." then some true
  else if version = "current" then some (link_target_exists_b s)
  else some (decide (version ∈ s.versionDirs.map Prod.fst))

/-- Embedding of `switch_to_version` (src/cli.rs), partial over the inputs
`join_is_dir` models: when the join of the versions root and the requested
identifier is not a directory, build the sorted list of available versions
and fail with the message of the Rust `anyhow::bail!`; when the current
link already points at the joined target (the stored link target and the
joined path share the root, so they are equal exactly when their final
components are), no-op; otherwise switch the link to the joined target,
recorded by its final component. -/
def switch_to_version (root : String) (s : SysState) (version : String) :
    Option (SysState × Except String Unit) :=
  match join_is_dir s version with
  | none => none
  | some true =>
    if s.currentLink = some version then some (s, Except.ok ())
    else some ({ s with currentLink := some version }, Except.ok ())
  | some false =>
    let available := (s.versionDirs.map Prod.fst).filter (fun n => n ≠ "current")
    let avail := insertion_sort_b str_le_b available
    let listing := if avail.isEmpty then "<none>" else join_comma avail
    some (s,
      Except.error
        ("version \x27" ++ version ++ "\x27 not found under " ++ root ++
          ".\nAvailable: " ++ listing))

/-! ## Install (src/install.rs, install_from_tar)

The versions root for install carries the payload tree of each version
directory.  Extraction into the uniquely named staging directory yields the
archive tree; the resolved version then names the final directory, whose
pre-existing content (if any) is removed wholesale before the staging tree
is renamed into place; finally the current link is switched and the shim
written. -/

/-- The versions root as seen by install. -/
structure RootState : Type where
  versions : List (String × List (String × FsTree))
  currentLink : Option String
  shimWritten : Bool

/-- Embedding of `install_from_tar` (src/install.rs): returns the state
after the call and the resolved version. -/
def install_from_tar (st : RootState) (tarPath : String)
    (archive : List (String × FsTree)) (now : UtcTime) : RootState × String :=
  let version := resolve_version tarPath archive now
  let kept := st.versions.filter (fun e => e.1 ≠ version)
  ({ versions := kept ++ [(version, archive)],
     currentLink := some version,
     shimWritten := true }, version)

/-! ## Retention pruning

src/prune.rs in the provided sources defines `prune_old_versions`, but the
install and update flows of src/cli.rs call
`prune_old_versions_with_preserve(&eff.versions_dir, keep, &preserve)`,
whose definition is not among the provided sources; only its callers are.
It is therefore modelled from the spec below.  `entries` are the version
directories (name, mtime) in listing order with `current` excluded,
`failing` the set of directories whose recursive deletion fails. -/

/-- Outcome of one Retention Engine invocation: the directories that
remain, those deleted, and the per-directory failures reported. -/
structure PruneResult : Type where
  remaining : List (String × Nat)
  deleted : List String
  reported : List String
deriving DecidableEq

/-- Comparator for newest-first ordering (spec: order by modification time
descending, ties broken by listing order). -/
def ge_mtime_b (a b : String × Nat) : Bool := decide (b.2 ≤ a.2)

/-- Modelled from the spec: the deletion candidates of one Retention
Engine pass - nothing when the keep-count is zero, otherwise everything
beyond the first `keep` entries in newest-first order that is not in the
PreserveSet (spec section 4.5; the concrete
`prune_old_versions_with_preserve` is absent from the provided sources). -/
def deletion_candidates (entries : List (String × Nat)) (keep : Nat)
    (preserve : List String) : List (String × Nat) :=
  if keep = 0 then []
  else ((insertion_sort_b ge_mtime_b entries).drop keep).filter
    (fun e => e.1 ∉ preserve)

/-- Modelled from the spec: the deletion loop attempts every candidate in
order; a failing deletion is recorded as a report and processing
continues with the remaining candidates. -/
def delete_pass (toDelete : List (String × Nat)) (failing : List String) :
    List String × List String :=
  toDelete.foldl
    (fun acc e =>
      if e.1 ∈ failing then (acc.1, acc.2 ++ [e.1]) else (acc.1 ++ [e.1], acc.2))
    ([], [])

/-- Modelled from the spec: `prune_old_versions_with_preserve` (called by
the install and update flows of src/cli.rs; its definition is missing from
the provided sources).  Spec section 4.5: keep-count zero prunes nothing;
otherwise the first `keep` entries in newest-first order are kept, any
directory in the PreserveSet is kept regardless of rank, every remaining
directory is recursively deleted, and individual deletion failures are
reported without aborting the pass. -/
def prune_old_versions_with_preserve (entries : List (String × Nat)) (keep : Nat)
    (preserve : List String) (failing : List String) : PruneResult :=
  if keep = 0 then ⟨entries, [], []⟩
  else
    let toDelete := deletion_candidates entries keep preserve
    let pass := delete_pass toDelete failing
    ⟨entries.filter (fun e => e.1 ∉ pass.1), pass.1, pass.2⟩

/-- Modelled from the spec: the Rust function returns `Ok` to its caller
even when individual deletions fail (spec section 7: retention errors are
collected and reported but never abort a broader install or update flow),
so the `?` at its call sites in src/cli.rs never propagates an error. -/
def prune_old_versions_with_preserve_run (entries : List (String × Nat))
    (keep : Nat) (preserve : List String) (failing : List String) :
    Except String PruneResult :=
  Except.ok (prune_old_versions_with_preserve entries keep preserve failing)

/-! ## Helper lemmas about the sorting, filtering and scanning primitives -/

theorem mem_ordered_insert_b {α : Type} (le : α → α → Bool) (x a : α) :
    ∀ l : List α, x ∈ ordered_insert_b le a l ↔ x = a ∨ x ∈ l := by
  intro l
  induction l with
  | nil => simp [ordered_insert_b]
  | cons y ys ih =>
    by_cases h : le a y = true
    · simp [ordered_insert_b, h]
    · simp only [ordered_insert_b, if_neg h, List.mem_cons, ih]
      tauto

theorem perm_ordered_insert_b {α : Type} (le : α → α → Bool) (a : α) :
    ∀ l : List α, List.Perm (ordered_insert_b le a l) (a :: l) := by
  intro l
  induction l with
  | nil => simp [ordered_insert_b]
  | cons y ys ih =>
    by_cases h : le a y = true
    · simp [ordered_insert_b, h]
    · simp only [ordered_insert_b, if_neg h]
      exact (List.Perm.cons y ih).trans (List.Perm.swap a y ys)

theorem perm_insertion_sort_b {α : Type} (le : α → α → Bool) :
    ∀ l : List α, List.Perm (insertion_sort_b le l) l := by
  intro l
  induction l with
  | nil => simp [insertion_sort_b]
  | cons x xs ih =>
    exact (perm_ordered_insert_b le x (insertion_sort_b le xs)).trans (List.Perm.cons x ih)

theorem mem_insertion_sort_b {α : Type} (le : α → α → Bool) (x : α) (l : List α) :
    x ∈ insertion_sort_b le l ↔ x ∈ l :=
  (perm_insertion_sort_b le l).mem_iff

theorem length_insertion_sort_b {α : Type} (le : α → α → Bool) (l : List α) :
    (insertion_sort_b le l).length = l.length :=
  (perm_insertion_sort_b le l).length_eq

theorem pairwise_ordered_insert_mtime (a : String × Nat) :
    ∀ l : List (String × Nat),
      List.Pairwise (fun x y : String × Nat => x.2 ≤ y.2) l →
      List.Pairwise (fun x y : String × Nat => x.2 ≤ y.2) (ordered_insert_b le_mtime_b a l) := by
  intro l
  induction l with
  | nil => simp [ordered_insert_b]
  | cons y ys ih =>
    intro hp
    rw [List.pairwise_cons] at hp
    by_cases h : le_mtime_b a y = true
    · have hay : a.2 ≤ y.2 := by simpa [le_mtime_b] using h
      rw [ordered_insert_b, if_pos h]
      refine List.Pairwise.cons ?_ (List.Pairwise.cons hp.1 hp.2)
      intro z hz
      rcases List.mem_cons.mp hz with rfl | hz
      · exact hay
      · exact hay.trans (hp.1 z hz)
    · have hya : y.2 ≤ a.2 := by
        have hnot : ¬ a.2 ≤ y.2 := by simpa [le_mtime_b] using h
        omega
      rw [ordered_insert_b, if_neg h]
      refine List.Pairwise.cons ?_ (ih hp.2)
      intro z hz
      rcases (mem_ordered_insert_b le_mtime_b z a ys).mp hz with rfl | hz
      · exact hya
      · exact hp.1 z hz

theorem pairwise_sort_mtime (l : List (String × Nat)) :
    List.Pairwise (fun x y : String × Nat => x.2 ≤ y.2)
      (insertion_sort_b le_mtime_b l) := by
  induction l with
  | nil => simp [insertion_sort_b]
  | cons x xs ih => exact pairwise_ordered_insert_mtime x _ ih

theorem mem_of_getLast?_eq (l : List (String × Nat)) (p : String × Nat)
    (h : l.getLast? = some p) : p ∈ l := by
  obtain ⟨hne, rfl⟩ :=
    List.mem_getLast?_eq_getLast (l := l) (x := p) (by simpa using h)
  exact List.getLast_mem hne

theorem pairwise_getLast_max :
    ∀ (l : List (String × Nat)),
      List.Pairwise (fun x y : String × Nat => x.2 ≤ y.2) l →
      ∀ p, l.getLast? = some p → ∀ q ∈ l, q.2 ≤ p.2 := by
  intro l
  induction l with
  | nil => intro _ p hp; simp at hp
  | cons a t ih =>
    intro hpw p hp q hq
    rw [List.pairwise_cons] at hpw
    cases t with
    | nil =>
      simp only [List.getLast?_singleton, Option.some.injEq] at hp
      rcases List.mem_singleton.mp hq with rfl
      subst hp
      exact Nat.le_refl _
    | cons b t2 =>
      rw [List.getLast?_cons_cons] at hp
      rcases List.mem_cons.mp hq with rfl | hq
      · exact hpw.1 p (mem_of_getLast?_eq _ _ hp)
      · exact ih hpw.2 p hp q hq

theorem getLast?_isSome_of_ne_nil (l : List (String × Nat)) (h : l ≠ []) :
    ∃ p, l.getLast? = some p := by
  cases hl : l.getLast? with
  | some p => exact ⟨p, rfl⟩
  | none => exact absurd (List.getLast?_eq_none_iff.mp hl) h

theorem length_filter_add_length_filter_not {α : Type} (p : α → Bool) :
    ∀ l : List α,
      (l.filter p).length + (l.filter (fun a => ! p a)).length = l.length := by
  intro l
  induction l with
  | nil => simp
  | cons a t ih =>
    by_cases h : p a = true
    · simp [List.filter_cons, h, ← ih]
      omega
    · simp only [Bool.not_eq_true] at h
      simp [List.filter_cons, h, ← ih]
      omega

theorem length_filter_key_le_one (cur : String) :
    ∀ l : List (String × Nat), (l.map Prod.fst).Nodup →
      (l.filter (fun e => e.1 = cur)).length ≤ 1 := by
  intro l
  induction l with
  | nil => simp
  | cons a t ih =>
    intro hnd
    rw [List.map_cons, List.nodup_cons] at hnd
    by_cases h : a.1 = cur
    · have hrest : t.filter (fun e => e.1 = cur) = [] := by
        rw [List.filter_eq_nil_iff]
        intro b hb hbc
        have : b.1 = cur := by simpa using hbc
        exact hnd.1 (h ▸ this ▸ List.mem_map_of_mem Prod.fst hb)
      simp [List.filter_cons, h, hrest]
    · simp only [List.filter_cons, decide_eq_true_eq, if_neg h]
      exact ih hnd.2

theorem length_filter_mono_of_imp {α : Type} (p q : α → Bool) :
    ∀ l : List α, (∀ a ∈ l, p a = true → q a = true) →
      (l.filter p).length ≤ (l.filter q).length := by
  intro l
  induction l with
  | nil => simp
  | cons a t ih =>
    intro h
    have ht := ih (fun b hb => h b (List.mem_cons_of_mem a hb))
    by_cases hp : p a = true
    · have hq := h a (List.mem_cons_self a t) hp
      simp [List.filter_cons, hp, hq]
      omega
    · simp only [Bool.not_eq_true] at hp
      by_cases hq : q a = true
      · simp [List.filter_cons, hp, hq]
        omega
      · simp only [Bool.not_eq_true] at hq
        simp [List.filter_cons, hp, hq]
        omega

theorem list_starts_with_append (l r : List Char) :
    list_starts_with l (l ++ r) = true := by
  induction l with
  | nil => rfl
  | cons a t ih => simp [list_starts_with, ih]

theorem contains_sub_of_starts (hay pat : List Char)
    (h : list_starts_with pat hay = true) : contains_sub hay pat = true := by
  cases hay with
  | nil => simp [contains_sub, h]
  | cons c t => simp [contains_sub, h]

theorem contains_sub_cons (c : Char) (t pat : List Char)
    (h : contains_sub t pat = true) : contains_sub (c :: t) pat = true := by
  rw [contains_sub]
  simp [h]

theorem contains_sub_append_left (a : List Char) (hay pat : List Char)
    (h : contains_sub hay pat = true) : contains_sub (a ++ hay) pat = true := by
  induction a with
  | nil => simpa using h
  | cons c t ih => exact contains_sub_cons c (t ++ hay) pat ih

theorem contains_sub_middle (a pat b : List Char) :
    contains_sub (a ++ (pat ++ b)) pat = true :=
  contains_sub_append_left a (pat ++ b) pat
    (contains_sub_of_starts (pat ++ b) pat (list_starts_with_append pat b))

theorem contains_sub_join_comma (x : String) :
    ∀ l : List String, x ∈ l →
      contains_sub (join_comma l).data x.data = true := by
  intro l
  induction l with
  | nil => intro h; simp at h
  | cons y ys ih =>
    intro hx
    rcases List.mem_cons.mp hx with rfl | hx
    · cases ys with
      | nil =>
        simpa [join_comma] using
          contains_sub_of_starts x.data x.data
            (by simpa using list_starts_with_append x.data [])
      | cons z zs =>
        have : (join_comma (x :: z :: zs)).data =
            x.data ++ (", ".data ++ (join_comma (z :: zs)).data) := by
          simp [join_comma, String.data_append]
        rw [this]
        exact contains_sub_middle [] x.data (", ".data ++ (join_comma (z :: zs)).data)
    · cases ys with
      | nil => simp at hx
      | cons z zs =>
        have hd : (join_comma (y :: z :: zs)).data =
            (y.data ++ ", ".data) ++ (join_comma (z :: zs)).data := by
          simp [join_comma, String.data_append]
        rw [hd]
        exact contains_sub_append_left (y.data ++ ", ".data) _ _ (ih hx)

theorem take_digits_digits_dot (d : List Char) (r : List Char)
    (hd : ∀ c ∈ d, c.isDigit = true) :
    take_digits (d ++ '.' :: r) = (d, '.' :: r) := by
  induction d with
  | nil => simp [take_digits, List.takeWhile, List.dropWhile]
  | cons c t ih =>
    have hc : c.isDigit = true := hd c (List.mem_cons_self c t)
    have ht := ih (fun x hx => hd x (List.mem_cons_of_mem c hx))
    simp only [take_digits, List.cons_append, List.takeWhile_cons, List.dropWhile_cons, hc,
      if_true] at *
    obtain ⟨h1, h2⟩ := Prod.mk.injEq .. ▸ ht
    simp_all [take_digits]

theorem match_semver_at_complete (d1 d2 d3 post : List Char)
    (h1 : ∀ c ∈ d1, c.isDigit = true) (h1n : d1 ≠ [])
    (h2 : ∀ c ∈ d2, c.isDigit = true) (h2n : d2 ≠ [])
    (h3 : ∀ c ∈ d3, c.isDigit = true) (h3n : d3 ≠ []) :
    ∃ v, match_semver_at (d1 ++ '.' :: d2 ++ '.' :: d3 ++ post) = some v := by
  have e1 : take_digits (d1 ++ '.' :: (d2 ++ '.' :: (d3 ++ post))) =
      (d1, '.' :: (d2 ++ '.' :: (d3 ++ post))) := take_digits_digits_dot d1 _ h1
  have e2 : take_digits (d2 ++ '.' :: (d3 ++ post)) =
      (d2, '.' :: (d3 ++ post)) := take_digits_digits_dot d2 _ h2
  cases d3 with
  | nil => exact absurd rfl h3n
  | cons c3 t3 =>
    have hc3 : c3.isDigit = true := h3 c3 (List.mem_cons_self c3 t3)
    have e3 : ((c3 :: t3 ++ post).takeWhile Char.isDigit) =
        c3 :: ((t3 ++ post).takeWhile Char.isDigit) := by
      simp [List.takeWhile_cons, hc3]
    refine ⟨d1 ++ '.' :: d2 ++ '.' :: (c3 :: (t3 ++ post).takeWhile Char.isDigit), ?_⟩
    rw [match_semver_at]
    simp only [List.append_assoc, List.cons_append] at *
    rw [e1]
    simp only [if_neg h1n]
    rw [e2]
    simp only [if_neg h2n]
    rw [take_digits]
    simp only [e3]
    simp

theorem scan_semver_complete :
    ∀ (pre d1 d2 d3 post : List Char),
      (∀ c ∈ d1, c.isDigit = true) → d1 ≠ [] →
      (∀ c ∈ d2, c.isDigit = true) → d2 ≠ [] →
      (∀ c ∈ d3, c.isDigit = true) → d3 ≠ [] →
      ∃ v, scan_semver (pre ++ d1 ++ '.' :: d2 ++ '.' :: d3 ++ post) = some v := by
  intro pre
  induction pre with
  | nil =>
    intro d1 d2 d3 post h1 h1n h2 h2n h3 h3n
    obtain ⟨v, hv⟩ := match_semver_at_complete d1 d2 d3 post h1 h1n h2 h2n h3 h3n
    cases d1 with
    | nil => exact absurd rfl h1n
    | cons c1 t1 =>
      refine ⟨v, ?_⟩
      simp only [List.nil_append, List.cons_append] at hv ⊢
      simp only [scan_semver, hv]
  | cons p ps ih =>
    intro d1 d2 d3 post h1 h1n h2 h2n h3 h3n
    obtain ⟨v, hv⟩ := ih d1 d2 d3 post h1 h1n h2 h2n h3 h3n
    rw [List.cons_append]
    cases hm : match_semver_at (p :: (ps ++ d1 ++ '.' :: d2 ++ '.' :: d3 ++ post)) with
    | some w => exact ⟨w, by simp only [scan_semver, List.append_eq, hm]⟩
    | none =>
      refine ⟨v, ?_⟩
      simp only [scan_semver, List.append_eq, hm]
      exact hv

theorem match_semver_at_ne_nil (cs : List Char) (v : List Char)
    (h : match_semver_at cs = some v) : v ≠ [] := by
  rw [match_semver_at] at h
  by_cases h1 : (take_digits cs).1 = []
  · simp [h1] at h
  · simp only [if_neg h1] at h
    rcases hd : (take_digits cs).2 with _ | ⟨c, r2⟩ <;> rw [hd] at h
    · simp at h
    · by_cases hc : c = '.'
      · subst hc
        simp only [] at h
        by_cases h2 : (take_digits r2).1 = []
        · simp [h2] at h
        · simp only [if_neg h2] at h
          rcases hd3 : (take_digits r2).2 with _ | ⟨c3, r4⟩ <;> rw [hd3] at h
          · simp at h
          · by_cases hc3 : c3 = '.'
            · subst hc3
              simp only [] at h
              by_cases h3 : (take_digits r4).1 = []
              · simp [h3] at h
              · simp only [if_neg h3, Option.some.injEq] at h
                subst h
                intro hcon
                simp at hcon
            · simp [hc3] at h
      · simp [hc] at h

theorem digit_char_is_digit (m : Nat) (h : m < 10) :
    (Nat.digitChar m).isDigit = true := by
  interval_cases m <;> rfl

theorem digit_char_mod_ten (n : Nat) : (Nat.digitChar (n % 10)).isDigit = true :=
  digit_char_is_digit (n % 10) (Nat.mod_lt n (by decide))

theorem timestamp_version_length (t : UtcTime) (h : t.Valid) :
    (timestamp_version t).length = 14 := by
  obtain ⟨hy, _⟩ := h
  simp [timestamp_version, pad4, pad2, if_pos hy, String.length_append]

theorem timestamp_version_digits (t : UtcTime) (h : t.Valid) :
    (timestamp_version t).data.all Char.isDigit = true := by
  obtain ⟨hy, _⟩ := h
  simp only [timestamp_version, pad4, if_pos hy, pad2, String.data_append]
  simp [List.all_cons, digit_char_mod_ten]

theorem timestamp_version_ne_empty (t : UtcTime) (h : t.Valid) :
    timestamp_version t ≠ "" := by
  intro hc
  have := timestamp_version_length t h
  rw [hc] at this
  simp [String.length] at this

theorem delete_pass_go (failing : List String) :
    ∀ (toDelete : List (String × Nat)) (acc : List String × List String),
      toDelete.foldl
        (fun acc e =>
          if e.1 ∈ failing then (acc.1, acc.2 ++ [e.1]) else (acc.1 ++ [e.1], acc.2))
        acc =
      (acc.1 ++ ((toDelete.filter (fun e => e.1 ∉ failing)).map Prod.fst),
       acc.2 ++ ((toDelete.filter (fun e => e.1 ∈ failing)).map Prod.fst)) := by
  intro toDelete
  induction toDelete with
  | nil => intro acc; simp
  | cons e t ih =>
    intro acc
    by_cases h : e.1 ∈ failing
    · rw [List.foldl_cons, if_pos h, ih]
      simp [List.filter_cons, h]
    · rw [List.foldl_cons, if_neg h, ih]
      simp [List.filter_cons, h]

theorem delete_pass_eq (toDelete : List (String × Nat)) (failing : List String) :
    delete_pass toDelete failing =
      ((toDelete.filter (fun e => e.1 ∉ failing)).map Prod.fst,
       (toDelete.filter (fun e => e.1 ∈ failing)).map Prod.fst) := by
  rw [delete_pass, delete_pass_go]
  simp

/-! ## Claim theorems -/

/-- C1: the claim asserts that an activation switch never leaves CurrentLink
observably missing when it held a valid target before the call, because the
temporary-symlink-plus-rename is the atomic pivot.  The code contradicts
this: `atomic_symlink_switch` (src/util.rs lines 20-22) calls
`fs::remove_file(link)` whenever `link.exists()`, before the rename.  This
theorem evaluates the embedded switch at the failing input - CurrentLink
pointing at the existing directory `1.0.0`, switching to `1.0.1` - and
exhibits the observable intermediate state (index 3 of the trace, after the
removal and before the rename) in which the link is absent, even though the
call then completes with the link pointing at the new target. -/
theorem c1_activation_switch_transient_absence :
    resolves ["1.0.0", "1.0.1"] (some "1.0.0") = true ∧
    (atomic_symlink_switch_states ⟨["1.0.0", "1.0.1"], some "1.0.0", none⟩ "1.0.1")[3]? =
      some ⟨["1.0.0", "1.0.1"], none, some "1.0.1"⟩ ∧
    (atomic_symlink_switch_states ⟨["1.0.0", "1.0.1"], some "1.0.0", none⟩ "1.0.1").getLast? =
      some ⟨["1.0.0", "1.0.1"], some "1.0.1", none⟩ := by
  decide

/-- C7: the Local Version Detector reports "not installed" as a normal
`Ok(None)` value - never through the error channel - in all three
situations the claim names: the `current` symlink is absent, no
product-descriptor file is found, or a descriptor is found but no version
field can be extracted from it. -/
theorem c7_detect_local_version_not_installed (s : LocalState)
    (h : s.current = none ∨
      ∃ rn es, s.current = some (rn, es) ∧
        (find_product_json rn es = none ∨
          ∃ data, find_product_json rn es = some data ∧
            local_version_from_descriptor data = none)) :
    detect_local_version s = Except.ok none := by
  rcases h with h | ⟨rn, es, hcur, h2⟩
  · simp [detect_local_version, h]
  · rcases h2 with hnone | ⟨data, hd, hv⟩
    · simp [detect_local_version, hcur, hnone]
    · simp [detect_local_version, hcur, hd, hv]

/-- Witness for C7 at a concrete state exercising the deepest case: the
current link resolves to a tree whose only entry is a `product.json` that
parses neither as JSON nor through the lenient regex. -/
theorem c7_detect_local_version_not_installed_witness :
    detect_local_version ⟨some ("1.2.3", [("product.json", FsTree.file "hello")])⟩ =
      Except.ok none :=
  c7_detect_local_version_not_installed
    ⟨some ("1.2.3", [("product.json", FsTree.file "hello")])⟩
    (Or.inr ⟨"1.2.3", [("product.json", FsTree.file "hello")], rfl,
      Or.inr ⟨"hello", by rfl, by rfl⟩⟩)

/-- C8: when the resolved version of an install names an already-existing
version directory, the install replaces it wholesale: in the resulting
versions root the only entry under that name carries exactly the freshly
extracted archive tree (src/install.rs lines 41-49 remove the pre-existing
directory entirely before renaming the staging tree into place), and the
current link points at it.  The old payload is never merged with the new
one. -/
theorem c8_install_overwrites_wholesale (st : RootState) (tarPath : String)
    (archive : List (String × FsTree)) (now : UtcTime)
    (_hpre : resolve_version tarPath archive now ∈ st.versions.map Prod.fst) :
    ((install_from_tar st tarPath archive now).1.versions.filter
        (fun e => e.1 = (install_from_tar st tarPath archive now).2)) =
      [((install_from_tar st tarPath archive now).2, archive)] ∧
    (install_from_tar st tarPath archive now).1.currentLink =
      some (install_from_tar st tarPath archive now).2 := by
  have hnil : (st.versions.filter
      (fun e => e.1 ≠ resolve_version tarPath archive now)).filter
        (fun e => e.1 = resolve_version tarPath archive now) = [] := by
    rw [List.filter_eq_nil_iff]
    intro a ha
    have h2 := (List.mem_filter.mp ha).2
    simp at h2 ⊢
    exact h2
  constructor
  · simp [install_from_tar, List.filter_append, hnil, List.filter_cons]
  · simp [install_from_tar]

/-- Witness for C8: installing the archive named
`Windsurf-linux-x64-2.3.4.tar.gz` over a root that already holds a
directory `2.3.4` with a different payload leaves exactly the new payload
under `2.3.4`. -/
theorem c8_install_overwrites_wholesale_witness :
    ((install_from_tar ⟨[("2.3.4", [("old", FsTree.file "o")])], some "2.3.4", true⟩
        "Windsurf-linux-x64-2.3.4.tar.gz" [("new", FsTree.file "n")]
        ⟨2025, 1, 1, 0, 0, 0⟩).1.versions.filter
      (fun e => e.1 = (install_from_tar ⟨[("2.3.4", [("old", FsTree.file "o")])],
        some "2.3.4", true⟩ "Windsurf-linux-x64-2.3.4.tar.gz"
        [("new", FsTree.file "n")] ⟨2025, 1, 1, 0, 0, 0⟩).2)) =
      [((install_from_tar ⟨[("2.3.4", [("old", FsTree.file "o")])], some "2.3.4", true⟩
        "Windsurf-linux-x64-2.3.4.tar.gz" [("new", FsTree.file "n")]
        ⟨2025, 1, 1, 0, 0, 0⟩).2, [("new", FsTree.file "n")])] :=
  (c8_install_overwrites_wholesale
    ⟨[("2.3.4", [("old", FsTree.file "o")])], some "2.3.4", true⟩
    "Windsurf-linux-x64-2.3.4.tar.gz" [("new", FsTree.file "n")]
    ⟨2025, 1, 1, 0, 0, 0⟩ (by decide)).1

/-- C10: with two or more version directories but an absent (or unreadable)
current link, rollback propagates the error from reading CurrentLink - it
neither succeeds nor reports NotEnoughVersions - and performs no activation
switch, leaving the state unchanged (the `fs::read_link` at
src/install.rs lines 69-70 runs after the length check and before any
mutation). -/
theorem c10_rollback_unreadable_link (s : SysState) (h1 : 2 ≤ s.versionDirs.length)
    (h2 : s.currentLink = none) :
    rollback s = (s, Except.error RollbackErr.currentLinkUnreadable) ∧
      (Except.error RollbackErr.currentLinkUnreadable :
          Except RollbackErr String) ≠
        Except.error RollbackErr.notEnoughVersions := by
  constructor
  · rw [rollback, if_neg (by omega : ¬ s.versionDirs.length < 2), h2]
  · simp

/-- Witness for C10 at a concrete two-directory root with no current link. -/
theorem c10_rollback_unreadable_link_witness :
    rollback ⟨[("1.0.0", 1), ("1.0.1", 2)], none⟩ =
      (⟨[("1.0.0", 1), ("1.0.1", 2)], none⟩,
        Except.error RollbackErr.currentLinkUnreadable) :=
  (c10_rollback_unreadable_link ⟨[("1.0.0", 1), ("1.0.1", 2)], none⟩ (by decide) rfl).1

theorem scan_semver_ne_nil : ∀ (cs l : List Char), scan_semver cs = some l → l ≠ [] := by
  intro cs
  induction cs with
  | nil => intro l h; simp [scan_semver] at h
  | cons c t ih =>
    intro l h
    cases hm : match_semver_at (c :: t) with
    | some w =>
      simp only [scan_semver, hm, Option.some.injEq] at h
      exact h ▸ match_semver_at_ne_nil (c :: t) w hm
    | none =>
      simp only [scan_semver, hm] at h
      exact ih l h

/-- C6 corrected: with no version token in the archive file name, the
install-time Version Resolver finds the first entry named `product.json`
within 4 directory levels of the staged tree (walk order, directories
before their contents) and reads only the product-specific
`windsurfVersion` field from it with the lenient field regex, using the
field value verbatim; there is no fallback to a generic `version` field
and no three-part-token filtering, and a descriptor without
`windsurfVersion` makes the detection fail
(src/install.rs, detect_version_from_product_json and
parse_windsurf_version_from_product). -/
theorem c6_detect_product_json_reads_windsurf_version_only
    (staged : List (String × FsTree)) :
    ((walk_depth 4 staged).find? (fun e => e.1 = "product.json") = none →
      detect_version_from_product_json staged =
        Except.error DetectErr.productJsonNotFound) ∧
    (∀ nm data,
      (walk_depth 4 staged).find? (fun e => e.1 = "product.json") =
          some (nm, FsTree.file data) →
      (∀ v, json_extract_field data "windsurfVersion" = some v →
        detect_version_from_product_json staged = Except.ok v) ∧
      (json_extract_field data "windsurfVersion" = none →
        detect_version_from_product_json staged =
          Except.error DetectErr.versionFieldNotFound)) := by
  constructor
  · intro h
    simp [detect_version_from_product_json, h]
  · intro nm data h
    constructor
    · intro v hv
      simp [detect_version_from_product_json, h, hv]
    · intro hn
      simp [detect_version_from_product_json, h, hn]

/-- Counterexample for C6: a staged tree whose descriptor carries only the
generic `version` field with the three-part token `1.2.3` - which the
claim says the resolver accepts as fallback - makes the code fail with
`windsurfVersion not found` instead; the generic field was present and
extractable. -/
theorem c6_counterexample_no_version_fallback :
    detect_version_from_product_json
        [("product.json", FsTree.file "\x7b \"version\":\"1.2.3\" \x7d")] =
      Except.error DetectErr.versionFieldNotFound ∧
    json_extract_field "\x7b \"version\":\"1.2.3\" \x7d" "version" = some "1.2.3" :=
  ⟨rfl, rfl⟩

/-- Witness for C6 at a concrete staged tree whose descriptor carries
`windsurfVersion`. -/
theorem c6_detect_product_json_witness :
    detect_version_from_product_json
        [("product.json", FsTree.file "\x7b \"windsurfVersion\":\"9.9.9\" \x7d")] =
      Except.ok "9.9.9" := by
  have h := c6_detect_product_json_reads_windsurf_version_only
    [("product.json", FsTree.file "\x7b \"windsurfVersion\":\"9.9.9\" \x7d")]
  exact (h.2 "product.json" "\x7b \"windsurfVersion\":\"9.9.9\" \x7d" (by rfl)).1
    "9.9.9" (by rfl)

/-- C5 corrected: version resolution follows the first-success-wins order
the claim states - a three-part numeric token in the archive file name wins
over everything (and whenever the file name contains such a token the
file-name branch fires), else a descriptor-extracted value is used
verbatim, else the resolver falls back to the 14-character all-digit UTC
timestamp - but the result is guaranteed non-empty only when the
descriptor-derived value is non-empty: the lenient field regex can capture
an empty `windsurfVersion` string, which the resolver then uses as the
version. -/
theorem c5_resolve_version_first_success (tarPath : String)
    (staged : List (String × FsTree)) (now : UtcTime) (hnow : now.Valid)
    (hdesc : detect_version_from_product_json staged ≠ Except.ok "") :
    (∀ name pre d1 d2 d3 post, file_name_of tarPath = some name →
      name.data = pre ++ d1 ++ '.' :: d2 ++ '.' :: d3 ++ post →
      (∀ c ∈ d1, c.isDigit = true) → d1 ≠ [] →
      (∀ c ∈ d2, c.isDigit = true) → d2 ≠ [] →
      (∀ c ∈ d3, c.isDigit = true) → d3 ≠ [] →
      ∃ v, extract_version_from_filename tarPath = some v) ∧
    (∀ v, extract_version_from_filename tarPath = some v →
      resolve_version tarPath staged now = v) ∧
    (extract_version_from_filename tarPath = none →
      ∀ w, detect_version_from_product_json staged = Except.ok w →
        resolve_version tarPath staged now = w) ∧
    (extract_version_from_filename tarPath = none →
      (detect_version_from_product_json staged).toOption = none →
        resolve_version tarPath staged now = timestamp_version now ∧
        (timestamp_version now).length = 14 ∧
        (timestamp_version now).data.all Char.isDigit = true) ∧
    resolve_version tarPath staged now ≠ "" := by
  refine ⟨?_, ?_, ?_, ?_, ?_⟩
  · intro name pre d1 d2 d3 post hname hdata h1 h1n h2 h2n h3 h3n
    obtain ⟨v, hv⟩ := scan_semver_complete pre d1 d2 d3 post h1 h1n h2 h2n h3 h3n
    refine ⟨String.mk v, ?_⟩
    simp only [extract_version_from_filename, hname, hdata, hv]
    rfl
  · intro v hv
    simp [resolve_version, hv, Option.or, Option.getD]
  · intro hn w hw
    simp [resolve_version, hn, hw, Except.toOption, Option.or, Option.getD]
  · intro hn ht
    refine ⟨?_, timestamp_version_length now hnow, timestamp_version_digits now hnow⟩
    simp [resolve_version, hn, ht, Option.or, Option.getD]
  · cases hext : extract_version_from_filename tarPath with
    | some v =>
      have hres : resolve_version tarPath staged now = v := by
        simp [resolve_version, hext, Option.or, Option.getD]
      rw [hres]
      cases hfn : file_name_of tarPath with
      | none =>
        rw [extract_version_from_filename, hfn] at hext
        simp at hext
      | some name =>
        have hext2 : (scan_semver name.data).map String.mk = some v := by
          rw [extract_version_from_filename, hfn] at hext
          exact hext
        cases hscan : scan_semver name.data with
        | none => rw [hscan] at hext2; simp at hext2
        | some l =>
          rw [hscan] at hext2
          have hlv : String.mk l = v := Option.some.inj hext2
          have hl := scan_semver_ne_nil name.data l hscan
          intro hc
          rw [← hlv] at hc
          exact hl (congrArg String.data hc)
    | none =>
      cases hdet : (detect_version_from_product_json staged).toOption with
      | some w =>
        have hok : detect_version_from_product_json staged = Except.ok w := by
          cases hd : detect_version_from_product_json staged with
          | ok a =>
            rw [hd] at hdet
            simp only [Except.toOption, Option.some.injEq] at hdet
            rw [hdet]
          | error e => rw [hd] at hdet; simp [Except.toOption] at hdet
        have hres : resolve_version tarPath staged now = w := by
          simp [resolve_version, hext, hok, Except.toOption, Option.or, Option.getD]
        rw [hres]
        intro hc
        exact hdesc (hc ▸ hok)
      | none =>
        have hres : resolve_version tarPath staged now = timestamp_version now := by
          simp [resolve_version, hext, hdet, Option.or, Option.getD]
        rw [hres]
        exact timestamp_version_ne_empty now hnow

/-- Counterexample for C5: an archive name without a numeric token together
with a descriptor whose `windsurfVersion` field is the empty string makes
the resolver yield the empty string, contradicting the claim that version
resolution always yields a non-empty string. -/
theorem c5_counterexample_empty_version :
    resolve_version "windsurf-linux-x64.tar.gz"
        [("product.json", FsTree.file "\x7b \"windsurfVersion\":\"\" \x7d")]
        ⟨2025, 1, 1, 0, 0, 0⟩ = "" := by
  rfl

/-- Witness for C5: the file-name token wins and is non-empty. -/
theorem c5_resolve_version_first_success_witness :
    resolve_version "Windsurf-linux-x64-1.2.3.tar.gz" [] ⟨2025, 1, 1, 0, 0, 0⟩ =
      "1.2.3" ∧
    resolve_version "Windsurf-linux-x64-1.2.3.tar.gz" [] ⟨2025, 1, 1, 0, 0, 0⟩ ≠ "" := by
  have h := c5_resolve_version_first_success "Windsurf-linux-x64-1.2.3.tar.gz" []
    ⟨2025, 1, 1, 0, 0, 0⟩ (by decide) (by decide)
  exact ⟨h.2.1 "1.2.3" (by rfl), h.2.2.2.2⟩

/-- C3 (spec-modelled): a per-directory deletion failure never aborts the
prune pass - the deletion loop classifies every candidate either as
deleted or as a reported failure, independently of how many other
candidates fail - and the engine returns `Ok` to its callers, so the `?`
at the call sites in the install and update flows of src/cli.rs never
propagates a retention error.  The characterising equations show the
deleted and reported lists are exactly the candidate list split by the
failure set, so every candidate after a failing one is still attempted. -/
theorem c3_prune_failures_never_abort (entries : List (String × Nat)) (keep : Nat)
    (preserve failing : List String) :
    (prune_old_versions_with_preserve entries keep preserve failing).deleted =
      ((deletion_candidates entries keep preserve).filter
        (fun e => e.1 ∉ failing)).map Prod.fst ∧
    (prune_old_versions_with_preserve entries keep preserve failing).reported =
      ((deletion_candidates entries keep preserve).filter
        (fun e => e.1 ∈ failing)).map Prod.fst ∧
    (∀ e ∈ deletion_candidates entries keep preserve,
      e.1 ∈ (prune_old_versions_with_preserve entries keep preserve failing).deleted ∨
        e.1 ∈ (prune_old_versions_with_preserve entries keep preserve failing).reported) ∧
    (prune_old_versions_with_preserve_run entries keep preserve failing).isOk = true := by
  by_cases hk : keep = 0
  · subst hk
    refine ⟨?_, ?_, ?_, rfl⟩
    · simp [prune_old_versions_with_preserve, deletion_candidates]
    · simp [prune_old_versions_with_preserve, deletion_candidates]
    · intro e he
      simp [deletion_candidates] at he
  · have hdel : prune_old_versions_with_preserve entries keep preserve failing =
        ⟨entries.filter
            (fun e => e.1 ∉ (delete_pass (deletion_candidates entries keep preserve) failing).1),
          (delete_pass (deletion_candidates entries keep preserve) failing).1,
          (delete_pass (deletion_candidates entries keep preserve) failing).2⟩ := by
      rw [prune_old_versions_with_preserve, if_neg hk]
    rw [hdel, delete_pass_eq]
    refine ⟨rfl, rfl, ?_, rfl⟩
    intro e he
    by_cases hf : e.1 ∈ failing
    · right
      exact List.mem_map_of_mem Prod.fst (List.mem_filter.mpr ⟨he, by simpa using hf⟩)
    · left
      exact List.mem_map_of_mem Prod.fst (List.mem_filter.mpr ⟨he, by simpa using hf⟩)

/-- Witness for C3: with one failing candidate, the candidate is reported
(not silently dropped) and the engine still returns `Ok`. -/
theorem c3_prune_failures_never_abort_witness :
    (("1.0.0" : String) ∈
        (prune_old_versions_with_preserve
          [("1.0.0", 1), ("1.0.1", 2), ("1.0.2", 3)] 2 [] ["1.0.0"]).deleted ∨
      ("1.0.0" : String) ∈
        (prune_old_versions_with_preserve
          [("1.0.0", 1), ("1.0.1", 2), ("1.0.2", 3)] 2 [] ["1.0.0"]).reported) ∧
    (prune_old_versions_with_preserve_run
        [("1.0.0", 1), ("1.0.1", 2), ("1.0.2", 3)] 2 [] ["1.0.0"]).isOk = true := by
  have h := c3_prune_failures_never_abort
    [("1.0.0", 1), ("1.0.1", 2), ("1.0.2", 3)] 2 [] ["1.0.0"]
  exact ⟨h.2.2.1 ("1.0.0", 1) (by decide), h.2.2.2⟩

/-- C2 corrected (spec-modelled): one Retention Engine pass never deletes a
directory in its PreserveSet, a keep-count of zero prunes nothing, and when
the keep-count is at least one and all deletions succeed, at most
keep-count plus the number of PreserveSet members among the candidates
remain.  The bound `max(keep-count, |PreserveSet among candidates|)` the
claim states does not hold (see the counterexample): kept top-ranked
directories and preserved low-ranked directories accumulate. -/
theorem c2_prune_preserve_and_bound (entries : List (String × Nat)) (keep : Nat)
    (preserve failing : List String) :
    (∀ e ∈ entries, e.1 ∈ preserve →
      e ∈ (prune_old_versions_with_preserve entries keep preserve failing).remaining) ∧
    (keep = 0 →
      (prune_old_versions_with_preserve entries keep preserve failing).remaining =
        entries) ∧
    (1 ≤ keep → failing = [] →
      (prune_old_versions_with_preserve entries keep preserve failing).remaining.length ≤
        keep + (entries.filter (fun e => e.1 ∈ preserve)).length) := by
  refine ⟨?_, ?_, ?_⟩
  · intro e he hp
    by_cases hk : keep = 0
    · rw [prune_old_versions_with_preserve, if_pos hk]
      exact he
    · rw [prune_old_versions_with_preserve, if_neg hk]
      refine List.mem_filter.mpr ⟨he, ?_⟩
      simp only [decide_eq_true_eq]
      intro hmem
      rw [delete_pass_eq] at hmem
      obtain ⟨x, hx, hxe⟩ := List.mem_map.mp hmem
      have hx2 := List.mem_filter.mp hx
      have hx3 := List.mem_filter.mp (by
        have := hx2.1
        rw [deletion_candidates, if_neg hk] at this
        exact this)
      have : x.1 ∉ preserve := by simpa using hx3.2
      exact this (hxe ▸ hp)
  · intro hk
    rw [prune_old_versions_with_preserve, if_pos hk]
  · intro hk1 hf
    subst hf
    have hkne : keep ≠ 0 := by omega
    have hdelpass :
        (delete_pass (deletion_candidates entries keep preserve) ([] : List String)).1 =
          (deletion_candidates entries keep preserve).map Prod.fst := by
      rw [delete_pass_eq]
      simp
    have hrem : (prune_old_versions_with_preserve entries keep preserve []).remaining =
        entries.filter
          (fun e => e.1 ∉ (deletion_candidates entries keep preserve).map Prod.fst) := by
      rw [prune_old_versions_with_preserve, if_neg hkne]
      simp only [hdelpass]
    rw [hrem]
    have hperm : List.Perm entries (insertion_sort_b ge_mtime_b entries) :=
      (perm_insertion_sort_b ge_mtime_b entries).symm
    have hlen1 : (entries.filter
        (fun e => e.1 ∉ (deletion_candidates entries keep preserve).map Prod.fst)).length =
        ((insertion_sort_b ge_mtime_b entries).filter
          (fun e => e.1 ∉ (deletion_candidates entries keep preserve).map Prod.fst)).length :=
      (hperm.filter _).length_eq
    rw [hlen1]
    have hfsplit : (insertion_sort_b ge_mtime_b entries).filter
        (fun e => e.1 ∉ (deletion_candidates entries keep preserve).map Prod.fst) =
        ((insertion_sort_b ge_mtime_b entries).take keep).filter
          (fun e => e.1 ∉ (deletion_candidates entries keep preserve).map Prod.fst) ++
        ((insertion_sort_b ge_mtime_b entries).drop keep).filter
          (fun e => e.1 ∉ (deletion_candidates entries keep preserve).map Prod.fst) := by
      conv_lhs => rw [← List.take_append_drop keep (insertion_sort_b ge_mtime_b entries)]
      rw [List.filter_append]
    rw [hfsplit, List.length_append]
    have h1 : (((insertion_sort_b ge_mtime_b entries).take keep).filter
        (fun e => e.1 ∉ (deletion_candidates entries keep preserve).map Prod.fst)).length ≤
        keep :=
      le_trans (List.length_filter_le _ _)
        (List.length_take_le keep (insertion_sort_b ge_mtime_b entries))
    have h2 : (((insertion_sort_b ge_mtime_b entries).drop keep).filter
        (fun e => e.1 ∉ (deletion_candidates entries keep preserve).map Prod.fst)).length ≤
        (((insertion_sort_b ge_mtime_b entries).drop keep).filter
          (fun e => e.1 ∈ preserve)).length := by
      apply length_filter_mono_of_imp
      intro a ha hp
      simp only [decide_eq_true_eq] at hp ⊢
      by_contra hnq
      have hin : a ∈ deletion_candidates entries keep preserve := by
        rw [deletion_candidates, if_neg hkne]
        exact List.mem_filter.mpr ⟨ha, by simpa using hnq⟩
      exact hp (List.mem_map_of_mem Prod.fst hin)
    have h3 : (((insertion_sort_b ge_mtime_b entries).drop keep).filter
        (fun e => e.1 ∈ preserve)).length ≤
        ((insertion_sort_b ge_mtime_b entries).filter
          (fun e => e.1 ∈ preserve)).length :=
      ((List.drop_sublist keep (insertion_sort_b ge_mtime_b entries)).filter _).length_le
    have h4 : ((insertion_sort_b ge_mtime_b entries).filter
        (fun e => e.1 ∈ preserve)).length =
        (entries.filter (fun e => e.1 ∈ preserve)).length :=
      ((hperm.filter _).length_eq).symm
    omega

/-- Counterexample for C2: keep-count 1 over candidates `a`, `b`, `c`
(modification times 3, 2, 1) with PreserveSet `{c}` keeps the top-ranked
`a` and the preserved `c`, so two directories remain and the preserved one
is untouched, yet the claim allows at most
`max(keep-count, |PreserveSet among candidates|) = max 1 1 = 1`. -/
theorem c2_counterexample_max_bound :
    (prune_old_versions_with_preserve [("a", 3), ("b", 2), ("c", 1)] 1 ["c"] []).remaining =
      [("a", 3), ("c", 1)] ∧
    (prune_old_versions_with_preserve
      [("a", 3), ("b", 2), ("c", 1)] 1 ["c"] []).remaining.length = 2 ∧
    max 1 (([("a", 3), ("b", 2), ("c", 1)].filter
      (fun e : String × Nat => e.1 ∈ ["c"])).length) = 1 := by
  decide

/-- Witness for C2 at the scenario of spec section 8: three versions, keep
2, preserve the current `1.0.2`; the preserved entry remains and at most
`2 + 1` directories remain. -/
theorem c2_prune_preserve_and_bound_witness :
    ("1.0.2", 3) ∈ (prune_old_versions_with_preserve
        [("1.0.0", 1), ("1.0.1", 2), ("1.0.2", 3)] 2 ["1.0.2"] []).remaining ∧
    (prune_old_versions_with_preserve
        [("1.0.0", 1), ("1.0.1", 2), ("1.0.2", 3)] 2 ["1.0.2"] []).remaining.length ≤
      2 + ([("1.0.0", 1), ("1.0.1", 2), ("1.0.2", 3)].filter
        (fun e : String × Nat => e.1 ∈ ["1.0.2"])).length := by
  have h := c2_prune_preserve_and_bound
    [("1.0.0", 1), ("1.0.1", 2), ("1.0.2", 3)] 2 ["1.0.2"] []
  exact ⟨h.1 ("1.0.2", 3) (by decide) (by decide), h.2.2 (by decide) rfl⟩

/-- C4 corrected: rollback fails with NotEnoughVersions exactly when the
versions root holds fewer than two version directories, leaving the state
(and so CurrentLink) unchanged; and when two or more exist, CurrentLink is
readable and directory names are distinct, it activates the non-current
directory with the most recent modification time (ties resolved to the
latest in listing order, matching the stable sort and pop of
src/install.rs).  The claim as stated omits the readable-CurrentLink
premise: with two or more directories but no readable link the code
errors out instead of activating (see the counterexample and C10). -/
theorem c4_rollback_spec (s : SysState) :
    (s.versionDirs.length < 2 →
      rollback s = (s, Except.error RollbackErr.notEnoughVersions)) ∧
    ((rollback s).2 = Except.error RollbackErr.notEnoughVersions →
      s.versionDirs.length < 2) ∧
    (∀ cur, 2 ≤ s.versionDirs.length → s.currentLink = some cur →
      (s.versionDirs.map Prod.fst).Nodup →
      ∃ p, p ∈ s.versionDirs ∧ p.1 ≠ cur ∧
        rollback s = ({ s with currentLink := some p.1 }, Except.ok p.1) ∧
        ∀ q ∈ s.versionDirs, q.1 ≠ cur → q.2 ≤ p.2) := by
  obtain ⟨dirs, link⟩ := s
  refine ⟨?_, ?_, ?_⟩
  · intro h
    rw [rollback, if_pos h]
  · intro h
    by_contra hlen
    cases link with
    | none =>
      simp only [rollback, if_neg hlen] at h
      exact absurd h (by simp)
    | some cur =>
      simp only [rollback, if_neg hlen] at h
      cases hg : (insertion_sort_b le_mtime_b
          (dirs.filter (fun e => e.1 ≠ cur))).getLast? with
      | none => rw [hg] at h; simp at h
      | some p => rw [hg] at h; simp at h
  · intro cur hlen hcur hnodup
    simp only at hcur hnodup hlen
    subst hcur
    have heqf : dirs.filter (fun e => (e.1 ≠ cur : Prop)) =
        dirs.filter (fun e => ! decide (e.1 = cur)) := by
      apply List.filter_congr
      intro a _
      exact decide_not
    have hne : dirs.filter (fun e => (e.1 ≠ cur : Prop)) ≠ [] := by
      have hk := length_filter_key_le_one cur dirs hnodup
      have hadd := length_filter_add_length_filter_not
        (fun e : String × Nat => decide (e.1 = cur)) dirs
      intro hcon
      rw [heqf] at hcon
      have hzero : (dirs.filter (fun e => ! decide (e.1 = cur))).length = 0 := by
        rw [hcon]; rfl
      omega
    have hsne : insertion_sort_b le_mtime_b
        (dirs.filter (fun e => (e.1 ≠ cur : Prop))) ≠ [] := by
      intro hcon
      have hl := length_insertion_sort_b le_mtime_b
        (dirs.filter (fun e => (e.1 ≠ cur : Prop)))
      rw [hcon] at hl
      exact hne (List.length_eq_zero.mp hl.symm)
    obtain ⟨p, hp⟩ := getLast?_isSome_of_ne_nil _ hsne
    have hpmem_sorted : p ∈ insertion_sort_b le_mtime_b
        (dirs.filter (fun e => (e.1 ≠ cur : Prop))) := mem_of_getLast?_eq _ p hp
    have hpmem_rest : p ∈ dirs.filter (fun e => (e.1 ≠ cur : Prop)) :=
      (mem_insertion_sort_b le_mtime_b p _).mp hpmem_sorted
    have hpfilter := List.mem_filter.mp hpmem_rest
    refine ⟨p, hpfilter.1, by simpa using hpfilter.2, ?_, ?_⟩
    · rw [rollback, if_neg (show ¬ dirs.length < 2 by omega)]
      simp only [hp]
    · intro q hq hqc
      have hqrest : q ∈ dirs.filter (fun e => (e.1 ≠ cur : Prop)) :=
        List.mem_filter.mpr ⟨hq, by simpa using hqc⟩
      have hqsorted : q ∈ insertion_sort_b le_mtime_b
          (dirs.filter (fun e => (e.1 ≠ cur : Prop))) :=
        (mem_insertion_sort_b le_mtime_b q _).mpr hqrest
      exact pairwise_getLast_max _ (pairwise_sort_mtime _) p hp q hqsorted

/-- Counterexample for C4: a root with two version directories but no
readable CurrentLink makes rollback return the link-read error - it does
not activate the most recent non-current directory as the claim states for
every root with two or more version directories. -/
theorem c4_counterexample_two_dirs_unreadable_link :
    2 ≤ ([("1.0.0", 1), ("1.0.1", 2)] : List (String × Nat)).length ∧
    rollback ⟨[("1.0.0", 1), ("1.0.1", 2)], none⟩ =
      (⟨[("1.0.0", 1), ("1.0.1", 2)], none⟩,
        Except.error RollbackErr.currentLinkUnreadable) := by
  decide

/-- Witness for C4: on a three-version root with current at `1.0.2`,
rollback switches the link away from the current target and does not
report NotEnoughVersions. -/
theorem c4_rollback_spec_witness :
    (rollback ⟨[("1.0.0", 1), ("1.0.1", 2), ("1.0.2", 3)], some "1.0.2"⟩).1.currentLink ≠
      some "1.0.2" ∧
    (rollback ⟨[("1.0.0", 1), ("1.0.1", 2), ("1.0.2", 3)], some "1.0.2"⟩).2 ≠
      Except.error RollbackErr.notEnoughVersions := by
  obtain ⟨p, hmem, hne, heq, hmax⟩ :=
    (c4_rollback_spec ⟨[("1.0.0", 1), ("1.0.1", 2), ("1.0.2", 3)], some "1.0.2"⟩).2.2
      "1.0.2" (by decide) rfl (by decide)
  constructor
  · rw [heq]
    intro hc
    exact hne (Option.some.inj hc)
  · rw [heq]
    simp

/-- C9 corrected: explicit activation of a single-component version
identifier - one containing no `/` and distinct from `""`, `"."`, `".."`
and the literal `current` - that does not name an existing
VersionDirectory fails with the `anyhow::bail!` error whose message
contains the requested version, the versions-root path and every
currently available version identifier, and the state (so CurrentLink) is
unchanged.  The claim as stated also covers identifiers outside that
class, for which `versions_dir.join(version).is_dir()` can report an
existing directory although no VersionDirectory is named: the joined path
is the versions root itself for `""` and `"."`, its parent for `".."`,
and the followed `current` symlink for `current`; the code then succeeds
and repoints CurrentLink - see the counterexample. -/
theorem c9_switch_to_version_not_found (root : String) (s : SysState)
    (version : String)
    (h0 : '/' ∉ version.data)
    (h1 : version ∉ s.versionDirs.map Prod.fst)
    (h2 : version ≠ "current")
    (h2a : version ≠ "")
    (h2b : version ≠ ".")
    (h2c : version ≠ "..")
    (h3 : "current" ∉ s.versionDirs.map Prod.fst) :
    ∃ msg, switch_to_version root s version = some (s, Except.error msg) ∧
      contains_sub msg.data version.data = true ∧
      contains_sub msg.data root.data = true ∧
      ∀ n ∈ s.versionDirs.map Prod.fst, contains_sub msg.data n.data = true := by
  have hjd : join_is_dir s version = some false := by
    rw [join_is_dir, if_neg h0,
      if_neg (by rintro (h | h | h) <;> [exact h2a h; exact h2b h; exact h2c h]),
      if_neg h2]
    simp [h1]
  have hlist : switch_to_version root s version =
      some (s, Except.error
        ("version \x27" ++ version ++ "\x27 not found under " ++ root ++
          ".\nAvailable: " ++
          (if (insertion_sort_b str_le_b
              ((s.versionDirs.map Prod.fst).filter (fun n => n ≠ "current"))).isEmpty
            then "<none>"
            else join_comma (insertion_sort_b str_le_b
              ((s.versionDirs.map Prod.fst).filter (fun n => n ≠ "current")))))) := by
    rw [switch_to_version, hjd]
  refine ⟨_, hlist, ?_, ?_, ?_⟩
  · have hdata : ("version \x27" ++ version ++ "\x27 not found under " ++ root ++
        ".\nAvailable: " ++
        (if (insertion_sort_b str_le_b
            ((s.versionDirs.map Prod.fst).filter (fun n => n ≠ "current"))).isEmpty
          then "<none>"
          else join_comma (insertion_sort_b str_le_b
            ((s.versionDirs.map Prod.fst).filter (fun n => n ≠ "current"))))).data =
        "version \x27".data ++ (version.data ++
          ("\x27 not found under ".data ++ (root.data ++
            (".\nAvailable: ".data ++
              (if (insertion_sort_b str_le_b
                  ((s.versionDirs.map Prod.fst).filter (fun n => n ≠ "current"))).isEmpty
                then "<none>"
                else join_comma (insertion_sort_b str_le_b
                  ((s.versionDirs.map Prod.fst).filter
                    (fun n => n ≠ "current")))).data)))) := by
      simp [String.data_append, List.append_assoc]
    rw [hdata]
    exact contains_sub_append_left "version \x27".data _ _
      (contains_sub_of_starts _ _ (list_starts_with_append version.data _))
  · have hdata : ("version \x27" ++ version ++ "\x27 not found under " ++ root ++
        ".\nAvailable: " ++
        (if (insertion_sort_b str_le_b
            ((s.versionDirs.map Prod.fst).filter (fun n => n ≠ "current"))).isEmpty
          then "<none>"
          else join_comma (insertion_sort_b str_le_b
            ((s.versionDirs.map Prod.fst).filter (fun n => n ≠ "current"))))).data =
        ("version \x27".data ++ version.data ++ "\x27 not found under ".data) ++
          (root.data ++
            (".\nAvailable: ".data ++
              (if (insertion_sort_b str_le_b
                  ((s.versionDirs.map Prod.fst).filter (fun n => n ≠ "current"))).isEmpty
                then "<none>"
                else join_comma (insertion_sort_b str_le_b
                  ((s.versionDirs.map Prod.fst).filter
                    (fun n => n ≠ "current")))).data)) := by
      simp [String.data_append, List.append_assoc]
    rw [hdata]
    exact contains_sub_append_left _ _ _
      (contains_sub_of_starts _ _ (list_starts_with_append root.data _))
  · intro n hn
    have hnc : n ≠ "current" := fun hc => h3 (hc ▸ hn)
    have hnav : n ∈ (s.versionDirs.map Prod.fst).filter (fun m => m ≠ "current") :=
      List.mem_filter.mpr ⟨hn, by simpa using hnc⟩
    have hnsort : n ∈ insertion_sort_b str_le_b
        ((s.versionDirs.map Prod.fst).filter (fun m => m ≠ "current")) :=
      (mem_insertion_sort_b str_le_b n _).mpr hnav
    have hne : (insertion_sort_b str_le_b
        ((s.versionDirs.map Prod.fst).filter (fun m => m ≠ "current"))).isEmpty =
        false := by
      cases hl : insertion_sort_b str_le_b
          ((s.versionDirs.map Prod.fst).filter (fun m => m ≠ "current")) with
      | nil => rw [hl] at hnsort; simp at hnsort
      | cons a t => simp [hl]
    have hdata : ("version \x27" ++ version ++ "\x27 not found under " ++ root ++
        ".\nAvailable: " ++
        (if (insertion_sort_b str_le_b
            ((s.versionDirs.map Prod.fst).filter (fun m => m ≠ "current"))).isEmpty
          then "<none>"
          else join_comma (insertion_sort_b str_le_b
            ((s.versionDirs.map Prod.fst).filter (fun m => m ≠ "current"))))).data =
        ("version \x27" ++ version ++ "\x27 not found under " ++ root ++
          ".\nAvailable: ").data ++
          (join_comma (insertion_sort_b str_le_b
            ((s.versionDirs.map Prod.fst).filter (fun m => m ≠ "current")))).data := by
      rw [hne]
      simp [String.data_append, List.append_assoc]
    rw [hdata]
    exact contains_sub_append_left _ _ _ (contains_sub_join_comma n _ hnsort)

/-- Counterexample for C9: the identifiers `current` and `.` name no
VersionDirectory, yet activation does not fail with a not-found error for
either: `versions_dir.join("current").is_dir()` follows the symlink and
`versions_dir.join(".").is_dir()` resolves to the versions root itself,
so both operations succeed and repoint CurrentLink. -/
theorem c9_counterexample_path_identifiers :
    switch_to_version "/v" ⟨[("1.0.0", 0)], some "1.0.0"⟩ "current" =
      some (⟨[("1.0.0", 0)], some "current"⟩, Except.ok ()) ∧
    switch_to_version "/v" ⟨[("1.0.0", 0)], some "1.0.0"⟩ "." =
      some (⟨[("1.0.0", 0)], some "."⟩, Except.ok ()) ∧
    ("current" : String) ∉ ([("1.0.0", 0)] : List (String × Nat)).map Prod.fst ∧
    ("." : String) ∉ ([("1.0.0", 0)] : List (String × Nat)).map Prod.fst := by
  decide

/-- Witness for C9: requesting the missing version `1.12.9` over a root
holding only `1.12.11` leaves the state unchanged and fails. -/
theorem c9_switch_to_version_not_found_witness :
    (switch_to_version "/home/u/.local/opt/windsurf/versions"
        ⟨[("1.12.11", 5)], some "1.12.11"⟩ "1.12.9").map Prod.fst =
      some ⟨[("1.12.11", 5)], some "1.12.11"⟩ ∧
    (switch_to_version "/home/u/.local/opt/windsurf/versions"
        ⟨[("1.12.11", 5)], some "1.12.11"⟩ "1.12.9").map (fun r => r.2.isOk) =
      some false := by
  obtain ⟨msg, heq, _, _, _⟩ :=
    c9_switch_to_version_not_found "/home/u/.local/opt/windsurf/versions"
      ⟨[("1.12.11", 5)], some "1.12.11"⟩ "1.12.9" (by decide) (by decide) (by decide)
      (by decide) (by decide) (by decide) (by decide)
  rw [heq]
  exact ⟨rfl, rfl⟩
